import Mathlib

set_option linter.unusedVariables false

/-! Shallow embedding of the meeting-records viewer core: CSV-row
normalization, grouping, sorting, and filtering, translated from the
single-page application source. -/

/-- Characters treated as whitespace by the JavaScript runtime for
`String.prototype.trim` and the regex class `\s`, restricted to the ASCII
range occurring in header and cell data. -/
def wsChar (c : Char) : Bool :=
  c == ' ' || c == '\t' || c == '\n' || c == '\r' || c == '\x0b' || c == '\x0c'

/-- JavaScript `String.prototype.trim` on a character list: drop
whitespace from both ends. -/
def jsTrim (cs : List Char) : List Char :=
  ((cs.dropWhile wsChar).reverse.dropWhile wsChar).reverse

/-- JavaScript `String.prototype.trim`. -/
def trimStr (s : String) : String := String.mk (jsTrim s.toList)

/-- JavaScript `String.prototype.toLowerCase` (ASCII range). -/
def lowerStr (s : String) : String := String.mk (s.toList.map Char.toLower)

/-- Split a character list at every character satisfying `p`, keeping
empty pieces, as JavaScript `String.prototype.split` with a character
class does. -/
def splitPieces (p : Char → Bool) : List Char → List (List Char)
  | [] => [[]]
  | c :: cs =>
    if p c then [] :: splitPieces p cs
    else
      match splitPieces p cs with
      | [] => [[c]]
      | h :: t => (c :: h) :: t

/-- The delimiter class of `splitList`: the regex `[;\n]` in the source,
i.e. semicolon or newline. -/
def splitDelim (c : Char) : Bool := c == ';' || c == '\n'

/-- Source `splitList`: split on semicolons or newlines, trim each piece,
drop empty pieces.  The source guards `if (!text) return []`; every call
site passes a string (possibly empty), so the falsy test is the
empty-string test here. -/
def splitList (text : String) : List String :=
  if text == "" then []
  else
    ((splitPieces splitDelim text.toList).map (fun p => trimStr (String.mk p))).filter
      (fun s => s != "")

/-- A parsed JavaScript `Date`: its epoch-milliseconds value (`getTime`,
possibly negative for pre-1970 dates) together with the calendar fields
`getFullYear` / `getMonth` (0-based) / `getDate` that `toYMD` reads. -/
structure JDate where
  time : Int
  year : Int
  month : Nat
  day : Nat
  deriving DecidableEq

/-- `String.prototype.padStart(2, "0")`. -/
def pad2 (s : String) : String :=
  if s.length == 0 then "00" else if s.length == 1 then "0" ++ s else s

/-- Source `toYMD`: the empty string for a null date, otherwise
`year-month-day` with the month and day zero-padded to two digits. -/
def toYMD (d : Option JDate) : String :=
  match d with
  | none => ""
  | some dd =>
    toString dd.year ++ "-" ++ pad2 (toString (dd.month + 1)) ++ "-" ++ pad2 (toString dd.day)

/-- Source `parseDateLoose`: null for a falsy input, otherwise a
best-effort parse by the `Date` constructor.  That constructor's
free-form, engine-dependent parsing is abstracted as the parameter
`parse`, returning `none` exactly where the constructor yields an invalid
date (`isNaN(d.getTime())`). -/
def parseDateLoose (parse : String → Option JDate) (v : Option String) : Option JDate :=
  match v with
  | none => none
  | some s => if s == "" then none else parse s

/-- A raw CSV row as produced by the CSV parser with `header: true`: an
ordered association of header names to cell strings (JavaScript object
key order is insertion order). -/
abbrev RawRow := List (String × String)

/-- Property access `raw[k]`: `some` cell string when the header is
present, `none` for `undefined`. -/
def jsGet (raw : RawRow) (k : String) : Option String :=
  (raw.find? (fun kv => kv.1 == k)).map (fun kv => kv.2)

/-- Truthiness of a string-or-undefined value: `undefined` and the empty
string are falsy. -/
def jsTruthy (v : Option String) : Bool :=
  match v with
  | some s => s != ""
  | none => false

/-- JavaScript `a || b` on string-or-undefined values. -/
def jsOrOpt (a b : Option String) : Option String :=
  if jsTruthy a then a else b

/-- JavaScript `v || d` where `d` is a string default: the shape of every
`raw[...] || "default"` expression in `normalizeRecord`. -/
def jsOrStr (v : Option String) (d : String) : String :=
  match v with
  | some s => if s != "" then s else d
  | none => d

/-- Strip an expected literal prefix from a character list, returning the
remainder on success. -/
def stripLit : List Char → List Char → Option (List Char)
  | [], cs => some cs
  | _ :: _, [] => none
  | p :: ps, c :: cs => if p == c then stripLit ps cs else none

/-- Drop leading regex-`\s*` whitespace. -/
def dropWS (cs : List Char) : List Char := cs.dropWhile wsChar

/-- The tail alternatives of the action-column regex,
`(points?|items?|to\s*-?\s*dos?|todos?)`, matched against a lowercased
suffix.  For a match test an optional trailing `s?` can never affect
success, so only the mandatory stems are checked. -/
def actionTail (cs : List Char) : Bool :=
  "point".toList.isPrefixOf cs || "item".toList.isPrefixOf cs ||
    (match stripLit "to".toList cs with
     | none => false
     | some r =>
       let r1 := dropWS r
       let r2 := match r1 with
         | '-' :: t => dropWS t
         | _ => r1
       "do".toList.isPrefixOf r2) ||
    "todo".toList.isPrefixOf cs

/-- Does the action-column regex match starting at this position? -/
def actionAt (cs : List Char) : Bool :=
  match stripLit "action".toList cs with
  | none => false
  | some r => actionTail (dropWS r)

/-- Regex search: does the action-column pattern match at any position? -/
def searchAction : List Char → Bool
  | [] => false
  | c :: cs => actionAt (c :: cs) || searchAction cs

/-- `test` of `/action\s*(points?|items?|to\s*-?\s*dos?|todos?)/i` on a
header name; the `i` flag is rendered by lowercasing the input. -/
def actionTest (k : String) : Bool :=
  searchAction (k.toList.map Char.toLower)

/-- Source `pickColumn`: the exact configured header is consulted first,
guarded by `hasOwnProperty` (so a present-but-empty cell still wins);
otherwise the first header in iteration order passing the regex test;
otherwise `undefined`. -/
def pickColumn (raw : RawRow) (preferredName : String) (test : String → Bool) : Option String :=
  if preferredName != "" && (raw.find? (fun kv => kv.1 == preferredName)).isSome then
    (raw.find? (fun kv => kv.1 == preferredName)).map (fun kv => kv.2)
  else
    (raw.find? (fun kv => test kv.1)).map (fun kv => kv.2)

structure ColumnMap where
  timestamp : String
  date : String
  student : String
  project : String
  topic : String
  subtopics : String
  my_inputs : String
  link : String
  action_points : String

/-- The configured header names (including the double space inside the
project header, copied verbatim from the source). -/
def COLUMN_MAP : ColumnMap :=
  { timestamp := "Timestamp"
    date := "Date of Meeting"
    student := "Student Name (be consistent)"
    project := "Discussed Project Title  (be consistent)"
    topic := "Meeting Topic"
    subtopics := "Subtopics / Agenda Items"
    my_inputs := "Supervisor Inputs & Suggestions"
    link := "Link to Additional Materials (Optional)"
    action_points := "Action Points" }

structure MeetingRecord where
  meeting_id : String
  date : Option JDate
  date_label : String
  student : String
  project : String
  topic : String
  subtopics : List String
  my_inputs : String
  link : String
  action_items : List String
  _raw : RawRow
  deriving DecidableEq

/-- Source `normalizeRecord`.  `COLUMN_MAP` defines no `meeting_id`
entry, so the JavaScript access `raw[COLUMN_MAP.meeting_id]` coerces the
key `undefined` to the literal string `"undefined"`. -/
def normalizeRecord (parse : String → Option JDate) (raw : RawRow) : MeetingRecord :=
  let dateRawPrimary := jsGet raw COLUMN_MAP.date
  let dateRawFallback := jsGet raw COLUMN_MAP.timestamp
  let dateRaw := jsOrOpt dateRawPrimary dateRawFallback
  let date := parseDateLoose parse dateRaw
  let actionRaw := jsOrStr (pickColumn raw COLUMN_MAP.action_points actionTest) ""
  let action_items := splitList actionRaw
  { meeting_id := jsOrStr (jsGet raw "undefined") ""
    date := date
    date_label := match date with
      | some d => toYMD (some d)
      | none => jsOrStr dateRaw ""
    student := jsOrStr (jsGet raw COLUMN_MAP.student) ""
    project := jsOrStr (jsGet raw COLUMN_MAP.project) "Unspecified Project"
    topic := jsOrStr (jsGet raw COLUMN_MAP.topic) "(No topic)"
    subtopics := splitList (jsOrStr (jsGet raw COLUMN_MAP.subtopics) "")
    my_inputs := jsOrStr (jsGet raw COLUMN_MAP.my_inputs) "(No inputs)"
    link := jsOrStr (jsGet raw COLUMN_MAP.link) ""
    action_items := action_items
    _raw := raw }

/-- The sort key of both date comparators: `getTime`, with a missing date
read as 0. -/
def timeOf (r : MeetingRecord) : Int :=
  match r.date with
  | some d => d.time
  | none => 0

/-- Insert into a descending-by-time list: after every element whose time
is strictly larger, before the first whose time is equal or smaller — the
unique placement a stable sort with comparator `tb - ta` produces. -/
def insertDesc (r : MeetingRecord) : List MeetingRecord → List MeetingRecord
  | [] => [r]
  | y :: ys => if timeOf r < timeOf y then y :: insertDesc r ys else r :: y :: ys

/-- The stable descending-by-date sort shared by `groupByProject` and
`sortedRecords` (ECMAScript `Array.prototype.sort` is specified stable,
and its output order is determined by the comparator together with
stability). -/
def sortByDateDesc : List MeetingRecord → List MeetingRecord
  | [] => []
  | x :: xs => insertDesc x (sortByDateDesc xs)

/-- The grouping key: `r.project || "Unspecified Project"`. -/
def groupKey (r : MeetingRecord) : String :=
  if r.project == "" then "Unspecified Project" else r.project

/-- Append a record to its key's bucket, or add a fresh entry at the end
(JavaScript `Map` iteration order is insertion order). -/
def pushEntry (k : String) (r : MeetingRecord) :
    List (String × List MeetingRecord) → List (String × List MeetingRecord)
  | [] => [(k, [r])]
  | (k0, l0) :: rest =>
    if k0 == k then (k0, l0 ++ [r]) :: rest else (k0, l0) :: pushEntry k r rest

/-- The `Map` built by the bucketing loop of `groupByProject`. -/
def buildGroups (records : List MeetingRecord) : List (String × List MeetingRecord) :=
  records.foldl (fun m r => pushEntry (groupKey r) r m) []

/-- Source `groupByProject`: bucket the records by `groupKey`, then sort
each bucket by date descending. -/
def groupByProject (records : List MeetingRecord) : List (String × List MeetingRecord) :=
  (buildGroups records).map (fun kv => (kv.1, sortByDateDesc kv.2))

/-- Lookup of a project's bucket, `[]` when the key is absent. -/
def findGroup (groups : List (String × List MeetingRecord)) (k : String) : List MeetingRecord :=
  ((groups.find? (fun kv => kv.1 == k)).map (fun kv => kv.2)).getD []

/-- The filter state.  `dateFrom` and `dateTo` model
`dateFrom ? new Date(dateFrom) : null`: `some` epoch value when the bound
is active, `none` when the text field is empty. -/
structure FilterSpec where
  projectFilter : String
  studentFilter : String
  dateFrom : Option Int
  dateTo : Option Int
  q : String
  deriving DecidableEq

/-- Substring search on character lists
(`String.prototype.includes`). -/
def containsSeq (needle : List Char) : List Char → Bool
  | [] => needle.isEmpty
  | c :: cs => needle.isPrefixOf (c :: cs) || containsSeq needle cs

/-- `hay.includes(needle)`. -/
def containsStr (hay needle : String) : Bool := containsSeq needle.toList hay.toList

/-- The haystack of the free-text filter: student, project, topic, joined
subtopics, and inputs, joined with a spaced newline. -/
def hayOf (r : MeetingRecord) : String :=
  String.intercalate " \n "
    [r.student, r.project, r.topic, String.intercalate " " r.subtopics, r.my_inputs]

/-- The normalized query, `q.trim().toLowerCase()`, computed once before
the filter pass. -/
def qlOf (fs : FilterSpec) : String := lowerStr (trimStr fs.q)

/-- The predicate of `records.filter(...)` inside `filteredRecords`,
mirroring its early-return chain. -/
def jsKeep (fs : FilterSpec) (r : MeetingRecord) : Bool :=
  if fs.projectFilter != "ALL" && r.project != fs.projectFilter then false
  else if fs.studentFilter != "ALL" && r.student != fs.studentFilter then false
  else if (match fs.dateFrom, r.date with
           | some b, some d => decide (d.time < b)
           | _, _ => false) then false
  else if (match fs.dateTo, r.date with
           | some b, some d => decide (b < d.time)
           | _, _ => false) then false
  else
    if qlOf fs != "" then containsStr (lowerStr (hayOf r)) (qlOf fs)
    else true

/-- Source `filteredRecords`. -/
def filteredRecords (fs : FilterSpec) (records : List MeetingRecord) : List MeetingRecord :=
  records.filter (fun r => jsKeep fs r)

/-- Source `sortedRecords`: a copy of the filtered set, re-sorted by date
descending. -/
def sortedRecords (fs : FilterSpec) (records : List MeetingRecord) : List MeetingRecord :=
  sortByDateDesc (filteredRecords fs records)

/-- Follows the spec's filter table: keep only records whose project
exactly equals the selector, unless the selector is the wildcard ALL. -/
def projOK (fs : FilterSpec) (r : MeetingRecord) : Prop :=
  fs.projectFilter = "ALL" ∨ r.project = fs.projectFilter

/-- Follows the spec's filter table: keep only records whose student
exactly equals the selector, unless the selector is the wildcard ALL. -/
def studOK (fs : FilterSpec) (r : MeetingRecord) : Prop :=
  fs.studentFilter = "ALL" ∨ r.student = fs.studentFilter

/-- Follows the spec's filter table: drop records whose date is present
and strictly earlier than the bound; absent dates are exempt. -/
def fromOK (fs : FilterSpec) (r : MeetingRecord) : Prop :=
  ∀ b, fs.dateFrom = some b → ∀ d, r.date = some d → b ≤ d.time

/-- Follows the spec's filter table: drop records whose date is present
and strictly later than the bound; absent dates are exempt. -/
def toOK (fs : FilterSpec) (r : MeetingRecord) : Prop :=
  ∀ b, fs.dateTo = some b → ∀ d, r.date = some d → d.time ≤ b

/-- Follows the spec's filter table: case-insensitive substring match of
the query against the concatenated haystack; an empty query matches
everything. -/
def queryOK (fs : FilterSpec) (r : MeetingRecord) : Prop :=
  qlOf fs = "" ∨
    ∃ pre post, (lowerStr (hayOf r)).toList = pre ++ (qlOf fs).toList ++ post

/-- Conjunction of all active filter predicates, following the spec's
description of the Filter Engine. -/
def specMatchesFilter (fs : FilterSpec) (r : MeetingRecord) : Prop :=
  projOK fs r ∧ studOK fs r ∧ fromOK fs r ∧ toOK fs r ∧ queryOK fs r

/-- Ordered by date descending (timestamps nonincreasing). -/
def SortedDesc (l : List MeetingRecord) : Prop :=
  List.Pairwise (fun a b => timeOf b ≤ timeOf a) l

/-- A concrete instantiation of the abstract date parser, for evaluating
the pipeline on closed inputs. -/
def demoParse (s : String) : Option JDate :=
  if s == "2025-01-10" then some { time := 1736467200000, year := 2025, month := 0, day := 10 }
  else if s == "1960-01-01" then some { time := -315619200000, year := 1960, month := 0, day := 1 }
  else none

/-- A record whose date parses to a pre-epoch (negative) timestamp. -/
def rNeg : MeetingRecord :=
  normalizeRecord demoParse
    [("Date of Meeting", "1960-01-01"), ("Discussed Project Title  (be consistent)", "P")]

/-- A record with no date at all. -/
def rNone : MeetingRecord :=
  normalizeRecord demoParse [("Discussed Project Title  (be consistent)", "P")]

/-- A row with no project header. -/
def rawNoProj : RawRow := [("Meeting Topic", "T")]

/-- A row with no exact action-points header but a drifted variant. -/
def rawAction : RawRow :=
  [("Meeting Topic", "T"), ("Action Items (for next week)", "Do X; Do Y")]

/-- A row where the exact action-points header is present but empty while
a drifted variant holds content. -/
def rawAP : RawRow :=
  [("Action Points", ""), ("Action Items (for next week)", "Do X; Do Y")]

/-- A fully populated row matching the configured headers. -/
def rawFull : RawRow :=
  [("Date of Meeting", "2025-01-10"),
   ("Student Name (be consistent)", "Alice"),
   ("Discussed Project Title  (be consistent)", "ProjA"),
   ("Meeting Topic", "Kickoff"),
   ("Subtopics / Agenda Items", "Scope; Timeline"),
   ("Supervisor Inputs & Suggestions", "Looks good")]

/-- Filter bounds that exclude every dated record in the fixtures. -/
def fsBounds : FilterSpec :=
  { projectFilter := "ALL", studentFilter := "ALL",
    dateFrom := some 99999999, dateTo := some 100000000, q := "" }

/-- A filter specification with every predicate inactive. -/
def fsAll : FilterSpec :=
  { projectFilter := "ALL", studentFilter := "ALL",
    dateFrom := none, dateTo := none, q := "" }

theorem dropWhile_twice (p : Char → Bool) (l : List Char) :
    (l.dropWhile p).dropWhile p = l.dropWhile p := by
  induction l with
  | nil => rfl
  | cons c cs ih =>
    by_cases h : p c
    · simp [List.dropWhile_cons, h, ih]
    · simp [List.dropWhile_cons, h]

theorem head_dropWhile_false (p : Char → Bool) (l : List Char) (x : Char) (t : List Char)
    (h : l.dropWhile p = x :: t) : p x = false := by
  induction l with
  | nil => simp [List.dropWhile] at h
  | cons c cs ih =>
    by_cases hc : p c
    · rw [List.dropWhile_cons, if_pos hc] at h
      exact ih h
    · rw [List.dropWhile_cons, if_neg hc] at h
      injection h with h1 h2
      subst h1
      exact Bool.eq_false_iff.mpr hc

theorem dropWhile_of_head_false (p : Char → Bool) (x : Char) (t : List Char)
    (hx : p x = false) : (x :: t).dropWhile p = x :: t := by
  rw [List.dropWhile_cons, if_neg (by simp [hx])]

theorem jsTrim_idem (cs : List Char) : jsTrim (jsTrim cs) = jsTrim cs := by
  unfold jsTrim
  cases hA : cs.dropWhile wsChar with
  | nil => simp
  | cons x t =>
    have hx : wsChar x = false := head_dropWhile_false wsChar cs x t hA
    have hsplit : x :: t =
        ((x :: t).reverse.dropWhile wsChar).reverse ++
          ((x :: t).reverse.takeWhile wsChar).reverse := by
      conv_lhs => rw [← List.reverse_reverse (x :: t),
        ← List.takeWhile_append_dropWhile (p := wsChar) (l := (x :: t).reverse)]
      rw [List.reverse_append]
    have hstep1 : (((x :: t).reverse.dropWhile wsChar).reverse).dropWhile wsChar =
        ((x :: t).reverse.dropWhile wsChar).reverse := by
      cases hT : ((x :: t).reverse.dropWhile wsChar).reverse with
      | nil => rfl
      | cons y u =>
        have hyx : x :: t = (y :: u) ++ ((x :: t).reverse.takeWhile wsChar).reverse := by
          rw [← hT]
          exact hsplit
        injection hyx with h1 h2
        subst h1
        exact dropWhile_of_head_false wsChar x u hx
    rw [hstep1, List.reverse_reverse, dropWhile_twice]

theorem trimStr_idem (s : String) : trimStr (trimStr s) = trimStr s := by
  unfold trimStr
  have h : (String.mk (jsTrim s.toList)).toList = jsTrim s.toList := rfl
  rw [h, jsTrim_idem]

theorem splitList_mem {s x : String} (hx : x ∈ splitList s) : x ≠ "" ∧ trimStr x = x := by
  unfold splitList at hx
  by_cases hs : (s == "") = true
  · rw [if_pos hs] at hx
    simp at hx
  · rw [if_neg hs] at hx
    obtain ⟨hx1, hx2⟩ := List.mem_filter.mp hx
    obtain ⟨p, hp, hpx⟩ := List.mem_map.mp hx1
    constructor
    · subst hpx
      simpa using hx2
    · subst hpx
      unfold trimStr
      have h : (String.mk (jsTrim (String.mk p).toList)).toList = jsTrim (String.mk p).toList := rfl
      rw [h, jsTrim_idem]

theorem isPrefixOf_iff_exists : ∀ (n h : List Char), n.isPrefixOf h = true ↔ ∃ t, h = n ++ t
  | [], h => by simp [List.isPrefixOf]
  | a :: as, [] => by simp [List.isPrefixOf]
  | a :: as, b :: bs => by
    simp only [List.isPrefixOf, Bool.and_eq_true, beq_iff_eq, isPrefixOf_iff_exists as bs,
      List.cons_append]
    constructor
    · rintro ⟨rfl, t, rfl⟩
      exact ⟨t, rfl⟩
    · rintro ⟨t, h⟩
      injection h with h1 h2
      exact ⟨h1.symm, t, h2⟩

theorem containsSeq_iff (n h : List Char) :
    containsSeq n h = true ↔ ∃ pre post, h = pre ++ n ++ post := by
  induction h with
  | nil =>
    cases n with
    | nil =>
      simp only [containsSeq, List.isEmpty_nil]
      constructor
      · intro _
        exact ⟨[], [], rfl⟩
      · intro _
        trivial
    | cons a as =>
      simp [containsSeq]
  | cons c cs ih =>
    simp only [containsSeq, Bool.or_eq_true, ih, isPrefixOf_iff_exists]
    constructor
    · rintro (⟨t, ht⟩ | ⟨pre, post, hp⟩)
      · exact ⟨[], t, ht⟩
      · exact ⟨c :: pre, post, by simp [hp]⟩
    · rintro ⟨pre, post, hp⟩
      cases pre with
      | nil =>
        exact Or.inl ⟨post, by simpa using hp⟩
      | cons p ps =>
        injection hp with h1 h2
        exact Or.inr ⟨ps, post, h2⟩

theorem bool_ite_chain (c rest : Bool) :
    (if c then false else rest) = true ↔ (c = false ∧ rest = true) := by
  cases c <;> simp

theorem projCond_iff (fs : FilterSpec) (r : MeetingRecord) :
    ((fs.projectFilter != "ALL" && r.project != fs.projectFilter) = false) ↔ projOK fs r := by
  unfold projOK
  by_cases h1 : fs.projectFilter = "ALL"
  · simp [bne, h1]
  · by_cases h2 : r.project = fs.projectFilter
    · simp [bne, h1, h2]
    · simp [bne, h1, h2]

theorem studCond_iff (fs : FilterSpec) (r : MeetingRecord) :
    ((fs.studentFilter != "ALL" && r.student != fs.studentFilter) = false) ↔ studOK fs r := by
  unfold studOK
  by_cases h1 : fs.studentFilter = "ALL"
  · simp [bne, h1]
  · by_cases h2 : r.student = fs.studentFilter
    · simp [bne, h1, h2]
    · simp [bne, h1, h2]

theorem fromCond_iff (fs : FilterSpec) (r : MeetingRecord) :
    ((match fs.dateFrom, r.date with
      | some b, some d => decide (d.time < b)
      | _, _ => false) = false) ↔ fromOK fs r := by
  unfold fromOK
  cases fs.dateFrom with
  | none => cases r.date <;> simp
  | some b =>
    cases r.date with
    | none => simp
    | some d => simp [Int.not_lt]

theorem toCond_iff (fs : FilterSpec) (r : MeetingRecord) :
    ((match fs.dateTo, r.date with
      | some b, some d => decide (b < d.time)
      | _, _ => false) = false) ↔ toOK fs r := by
  unfold toOK
  cases fs.dateTo with
  | none => cases r.date <;> simp
  | some b =>
    cases r.date with
    | none => simp
    | some d => simp [Int.not_lt]

theorem queryCond_iff (fs : FilterSpec) (r : MeetingRecord) :
    ((if qlOf fs != "" then containsStr (lowerStr (hayOf r)) (qlOf fs) else true) = true) ↔
      queryOK fs r := by
  unfold queryOK
  by_cases hq : qlOf fs = ""
  · simp [hq]
  · simp only [bne_iff_ne, ne_eq, hq, not_false_eq_true, if_true]
    rw [containsStr, containsSeq_iff]
    simp [hq]

theorem jsKeep_iff (fs : FilterSpec) (r : MeetingRecord) :
    jsKeep fs r = true ↔ specMatchesFilter fs r := by
  unfold jsKeep specMatchesFilter
  rw [bool_ite_chain, bool_ite_chain, bool_ite_chain, bool_ite_chain]
  rw [projCond_iff, studCond_iff, fromCond_iff, toCond_iff, queryCond_iff]

theorem mem_filteredRecords (fs : FilterSpec) (recs : List MeetingRecord) (r : MeetingRecord) :
    r ∈ filteredRecords fs recs ↔ r ∈ recs ∧ specMatchesFilter fs r := by
  unfold filteredRecords
  rw [List.mem_filter, jsKeep_iff]

theorem insertDesc_perm (r : MeetingRecord) (l : List MeetingRecord) :
    List.Perm (insertDesc r l) (r :: l) := by
  induction l with
  | nil => exact List.Perm.refl _
  | cons y ys ih =>
    by_cases h : timeOf r < timeOf y
    · rw [insertDesc, if_pos h]
      exact (ih.cons y).trans (List.Perm.swap r y ys)
    · rw [insertDesc, if_neg h]

theorem sortByDateDesc_perm (l : List MeetingRecord) :
    List.Perm (sortByDateDesc l) l := by
  induction l with
  | nil => exact List.Perm.refl _
  | cons x xs ih =>
    rw [sortByDateDesc]
    exact (insertDesc_perm x (sortByDateDesc xs)).trans (ih.cons x)

theorem mem_insertDesc {r x : MeetingRecord} {l : List MeetingRecord} :
    x ∈ insertDesc r l ↔ x = r ∨ x ∈ l := by
  rw [(insertDesc_perm r l).mem_iff, List.mem_cons]

theorem insertDesc_sorted (r : MeetingRecord) (l : List MeetingRecord) (h : SortedDesc l) :
    SortedDesc (insertDesc r l) := by
  induction l with
  | nil => simp [insertDesc, SortedDesc]
  | cons y ys ih =>
    rcases List.pairwise_cons.mp h with ⟨hy, hys⟩
    by_cases hc : timeOf r < timeOf y
    · rw [insertDesc, if_pos hc]
      refine List.pairwise_cons.mpr ⟨?_, ih hys⟩
      intro z hz
      rcases mem_insertDesc.mp hz with rfl | hz'
      · exact le_of_lt hc
      · exact hy z hz'
    · rw [insertDesc, if_neg hc]
      refine List.pairwise_cons.mpr ⟨?_, List.pairwise_cons.mpr ⟨hy, hys⟩⟩
      intro z hz
      rcases List.mem_cons.mp hz with rfl | hz'
      · exact le_of_not_lt hc
      · exact le_trans (hy z hz') (le_of_not_lt hc)

theorem sortByDateDesc_sorted (l : List MeetingRecord) : SortedDesc (sortByDateDesc l) := by
  induction l with
  | nil => simp [sortByDateDesc, SortedDesc]
  | cons x xs ih =>
    rw [sortByDateDesc]
    exact insertDesc_sorted x (sortByDateDesc xs) ih

theorem filter_insertDesc (r : MeetingRecord) (l : List MeetingRecord) (t : Int) :
    (insertDesc r l).filter (fun x => timeOf x == t) =
      if timeOf r == t then r :: l.filter (fun x => timeOf x == t)
      else l.filter (fun x => timeOf x == t) := by
  induction l with
  | nil =>
    by_cases hr : (timeOf r == t) = true
    · simp [insertDesc, List.filter, hr]
    · simp [insertDesc, List.filter, hr]
  | cons y ys ih =>
    by_cases hc : timeOf r < timeOf y
    · rw [insertDesc, if_pos hc]
      by_cases hy : (timeOf y == t) = true
      · by_cases hr : (timeOf r == t) = true
        · exfalso
          have h1 : timeOf y = t := beq_iff_eq.mp hy
          have h2 : timeOf r = t := beq_iff_eq.mp hr
          rw [h1, h2] at hc
          exact lt_irrefl t hc
        · simp only [List.filter_cons, hy, if_pos, ih, hr]
          simp [hy, hr]
      · simp only [List.filter_cons, hy, ih]
        simp [hy]
    · rw [insertDesc, if_neg hc]
      by_cases hr : (timeOf r == t) = true
      · simp [List.filter_cons, hr]
      · simp [List.filter_cons, hr]

theorem filter_sortByDateDesc (l : List MeetingRecord) (t : Int) :
    (sortByDateDesc l).filter (fun x => timeOf x == t) = l.filter (fun x => timeOf x == t) := by
  induction l with
  | nil => rfl
  | cons x xs ih =>
    rw [sortByDateDesc, filter_insertDesc]
    by_cases hx : (timeOf x == t) = true
    · simp [List.filter_cons, hx, ih]
    · simp [List.filter_cons, hx, ih]

theorem findGroup_pushEntry (m : List (String × List MeetingRecord)) (k : String)
    (r : MeetingRecord) (k' : String) :
    findGroup (pushEntry k r m) k' =
      if k' = k then findGroup m k' ++ [r] else findGroup m k' := by
  induction m with
  | nil =>
    by_cases h : k' = k
    · subst h
      simp [pushEntry, findGroup]
    · have h2 : (k == k') = false := by
        simp only [beq_eq_false_iff_ne, ne_eq]
        exact fun hk => h hk.symm
      simp [pushEntry, findGroup, h2, h]
  | cons e rest ih =>
    obtain ⟨k0, l0⟩ := e
    by_cases h0 : (k0 == k) = true
    · rw [pushEntry, if_pos h0]
      have hk0 : k0 = k := beq_iff_eq.mp h0
      by_cases h' : (k0 == k') = true
      · have hk' : k0 = k' := beq_iff_eq.mp h'
        have hkk : k' = k := hk'.symm.trans hk0
        have hf1 : List.find? (fun kv => kv.1 == k') ((k0, l0 ++ [r]) :: rest) =
            some (k0, l0 ++ [r]) := List.find?_cons_of_pos _ (by simpa using h')
        have hf2 : List.find? (fun kv => kv.1 == k') ((k0, l0) :: rest) =
            some (k0, l0) := List.find?_cons_of_pos _ (by simpa using h')
        rw [if_pos hkk]
        unfold findGroup
        rw [hf1, hf2]
        rfl
      · have hne : k' ≠ k := by
          intro he
          exact h' (beq_iff_eq.mpr (hk0.trans he.symm))
        simp [findGroup, List.find?_cons_of_neg, h', hne]
    · rw [pushEntry, if_neg h0]
      by_cases h' : (k0 == k') = true
      · have hk' : k0 = k' := beq_iff_eq.mp h'
        have hne : ¬ k' = k := by
          intro he
          exact h0 (beq_iff_eq.mpr (hk'.trans he))
        simp [findGroup, List.find?_cons_of_pos, h', hne]
      · have hL : findGroup ((k0, l0) :: pushEntry k r rest) k' = findGroup (pushEntry k r rest) k' := by
          simp [findGroup, List.find?_cons_of_neg, h']
        have hR : findGroup ((k0, l0) :: rest) k' = findGroup rest k' := by
          simp [findGroup, List.find?_cons_of_neg, h']
        rw [hL, hR, ih]

theorem findGroup_foldl (recs : List MeetingRecord) (m : List (String × List MeetingRecord))
    (k : String) :
    findGroup (recs.foldl (fun m r => pushEntry (groupKey r) r m) m) k =
      findGroup m k ++ recs.filter (fun r => groupKey r == k) := by
  induction recs generalizing m with
  | nil => simp
  | cons r rs ih =>
    simp only [List.foldl_cons, List.filter_cons]
    rw [ih, findGroup_pushEntry]
    by_cases h : (groupKey r == k) = true
    · have h' : k = groupKey r := (beq_iff_eq.mp h).symm
      rw [if_pos h']
      simp [h]
    · have h' : ¬ k = groupKey r := by
        intro he
        exact h (beq_iff_eq.mpr he.symm)
      rw [if_neg h']
      simp [h]

theorem findGroup_map_sort (m : List (String × List MeetingRecord)) (k : String) :
    findGroup (m.map (fun kv => (kv.1, sortByDateDesc kv.2))) k =
      sortByDateDesc (findGroup m k) := by
  induction m with
  | nil => simp [findGroup, sortByDateDesc]
  | cons e rest ih =>
    obtain ⟨k0, l0⟩ := e
    by_cases h : (k0 == k) = true
    · simp [findGroup, List.find?_cons_of_pos, h]
    · simp only [List.map_cons]
      have hL : findGroup ((k0, sortByDateDesc l0) :: rest.map (fun kv => (kv.1, sortByDateDesc kv.2))) k
          = findGroup (rest.map (fun kv => (kv.1, sortByDateDesc kv.2))) k := by
        simp [findGroup, List.find?_cons_of_neg, h]
      have hR : findGroup ((k0, l0) :: rest) k = findGroup rest k := by
        simp [findGroup, List.find?_cons_of_neg, h]
      rw [hL, hR, ih]

theorem findGroup_groupByProject (recs : List MeetingRecord) (k : String) :
    findGroup (groupByProject recs) k =
      sortByDateDesc (recs.filter (fun r => groupKey r == k)) := by
  unfold groupByProject buildGroups
  rw [findGroup_map_sort, findGroup_foldl]
  simp [findGroup]

theorem normalizeRecord_project (parse : String → Option JDate) (raw : RawRow) :
    (normalizeRecord parse raw).project =
      jsOrStr (jsGet raw COLUMN_MAP.project) "Unspecified Project" := rfl

theorem normalizeRecord_topic (parse : String → Option JDate) (raw : RawRow) :
    (normalizeRecord parse raw).topic = jsOrStr (jsGet raw COLUMN_MAP.topic) "(No topic)" := rfl

theorem normalizeRecord_my_inputs (parse : String → Option JDate) (raw : RawRow) :
    (normalizeRecord parse raw).my_inputs =
      jsOrStr (jsGet raw COLUMN_MAP.my_inputs) "(No inputs)" := rfl

theorem normalizeRecord_meeting_id (parse : String → Option JDate) (raw : RawRow) :
    (normalizeRecord parse raw).meeting_id = jsOrStr (jsGet raw "undefined") "" := rfl

theorem normalizeRecord_subtopics (parse : String → Option JDate) (raw : RawRow) :
    (normalizeRecord parse raw).subtopics =
      splitList (jsOrStr (jsGet raw COLUMN_MAP.subtopics) "") := rfl

theorem normalizeRecord_action_items (parse : String → Option JDate) (raw : RawRow) :
    (normalizeRecord parse raw).action_items =
      splitList (jsOrStr (pickColumn raw COLUMN_MAP.action_points actionTest) "") := rfl

theorem normalizeRecord_date (parse : String → Option JDate) (raw : RawRow) :
    (normalizeRecord parse raw).date =
      parseDateLoose parse
        (jsOrOpt (jsGet raw COLUMN_MAP.date) (jsGet raw COLUMN_MAP.timestamp)) := rfl

theorem normalizeRecord_date_label (parse : String → Option JDate) (raw : RawRow) :
    (normalizeRecord parse raw).date_label =
      match parseDateLoose parse
          (jsOrOpt (jsGet raw COLUMN_MAP.date) (jsGet raw COLUMN_MAP.timestamp)) with
      | some d => toYMD (some d)
      | none =>
        jsOrStr (jsOrOpt (jsGet raw COLUMN_MAP.date) (jsGet raw COLUMN_MAP.timestamp)) "" := rfl

theorem jsOrStr_some_empty (v : String) : jsOrStr (some v) "" = v := by
  show (if (v != "") = true then v else "") = v
  by_cases h : (v != "") = true
  · rw [if_pos h]
  · rw [if_neg h]
    have hv : v = "" := by simpa using h
    rw [hv]

theorem jsOrStr_ne_empty (v : Option String) (d : String) (hd : d ≠ "") :
    jsOrStr v d ≠ "" := by
  cases v with
  | none => exact hd
  | some s =>
    show (if (s != "") = true then s else d) ≠ ""
    by_cases h : (s != "") = true
    · rw [if_pos h]
      simpa using h
    · rw [if_neg h]
      exact hd

theorem pickColumn_of_present (raw : RawRow) (name : String) (test : String → Bool) (v : String)
    (hname : (name != "") = true) (h : jsGet raw name = some v) :
    pickColumn raw name test = some v := by
  unfold pickColumn
  unfold jsGet at h
  have hsome : (raw.find? (fun kv => kv.1 == name)).isSome = true := by
    cases hf : raw.find? (fun kv => kv.1 == name) with
    | none =>
      rw [hf] at h
      simp at h
    | some kv => rfl
  rw [if_pos (by rw [hname, hsome]; rfl)]
  exact h

theorem pickColumn_of_absent (raw : RawRow) (name : String) (test : String → Bool)
    (h : jsGet raw name = none) :
    pickColumn raw name test = (raw.find? (fun kv => test kv.1)).map (fun kv => kv.2) := by
  unfold pickColumn
  unfold jsGet at h
  have hnone : raw.find? (fun kv => kv.1 == name) = none := by
    cases hf : raw.find? (fun kv => kv.1 == name) with
    | none => rfl
    | some kv =>
      rw [hf] at h
      simp at h
  rw [if_neg (by simp [hnone])]

/-- C1 (amended): for every record sequence and project key, the group's
records are ordered by date descending, an absent date being read as
timestamp value zero; records with equal timestamps retain their relative
input order (stability, stated per timestamp value); consequently every
record placed after an absent-date record has a non-positive timestamp,
so absent-date records come after all records whose date has a positive
timestamp (a date strictly after the Unix epoch). -/
theorem c1_group_sorted_stable (recs : List MeetingRecord) (k : String) :
    SortedDesc (findGroup (groupByProject recs) k) ∧
    (∀ t : Int, (findGroup (groupByProject recs) k).filter (fun r => timeOf r == t) =
      (recs.filter (fun r => groupKey r == k)).filter (fun r => timeOf r == t)) ∧
    List.Pairwise (fun a b => a.date = none → timeOf b ≤ 0)
      (findGroup (groupByProject recs) k) ∧
    (∀ r, r ∈ findGroup (groupByProject recs) k → r.date = none → timeOf r = 0) := by
  rw [findGroup_groupByProject]
  refine ⟨sortByDateDesc_sorted _, ?_, ?_, ?_⟩
  · intro t
    rw [filter_sortByDateDesc]
  · refine List.Pairwise.imp ?_ (sortByDateDesc_sorted _)
    intro a b hab hnone
    have ha : timeOf a = 0 := by simp [timeOf, hnone]
    rw [ha] at hab
    exact hab
  · intro r hr hnone
    simp [timeOf, hnone]

/-- Witness for C1 at a concrete input: the absent-date record has
timestamp zero, and the per-timestamp stability equation holds on the
two-record group. -/
theorem c1_group_sorted_stable_witness :
    timeOf rNone = 0 ∧
    (findGroup (groupByProject [rNeg, rNone]) "P").filter (fun r => timeOf r == 0) =
      (([rNeg, rNone]).filter (fun r => groupKey r == "P")).filter (fun r => timeOf r == 0) := by
  refine ⟨(c1_group_sorted_stable [rNeg, rNone] "P").2.2.2 rNone (by decide) (by decide),
    (c1_group_sorted_stable [rNeg, rNone] "P").2.1 0⟩

/-- C1 as stated is false: in project "P", the sorted group places the
record without a date before a record with a present (pre-epoch) date,
because an absent date is read as timestamp zero, which is larger than a
negative timestamp. -/
theorem c1_counterexample :
    findGroup (groupByProject [rNeg, rNone]) "P" = [rNone, rNeg] ∧
    rNone.date = none ∧
    rNeg.date = some { time := -315619200000, year := 1960, month := 0, day := 1 } ∧
    groupKey rNone = "P" ∧ groupKey rNeg = "P" := by decide

/-- C2: a raw row whose configured project header is absent or maps to an
empty value normalizes to the sentinel project "Unspecified Project", and
the grouping engine places every sentinel-projected record into the
sentinel group rather than dropping it. -/
theorem c2_unspecified_project :
    (∀ (parse : String → Option JDate) (raw : RawRow),
      (jsGet raw COLUMN_MAP.project = none ∨ jsGet raw COLUMN_MAP.project = some "") →
      (normalizeRecord parse raw).project = "Unspecified Project") ∧
    (∀ (recs : List MeetingRecord) (r : MeetingRecord), r ∈ recs →
      r.project = "Unspecified Project" →
      r ∈ findGroup (groupByProject recs) "Unspecified Project") := by
  constructor
  · intro parse raw h
    rw [normalizeRecord_project]
    rcases h with h | h <;> rw [h] <;> rfl
  · intro recs r hr hp
    rw [findGroup_groupByProject, (sortByDateDesc_perm _).mem_iff]
    refine List.mem_filter.mpr ⟨hr, ?_⟩
    simp [groupKey, hp]

/-- Witness for C2: a row without the project header normalizes to the
sentinel and lands in the sentinel group. -/
theorem c2_unspecified_project_witness :
    (normalizeRecord demoParse rawNoProj).project = "Unspecified Project" ∧
    normalizeRecord demoParse rawNoProj ∈
      findGroup (groupByProject [normalizeRecord demoParse rawNoProj]) "Unspecified Project" := by
  refine ⟨c2_unspecified_project.1 demoParse rawNoProj (Or.inl (by decide)), ?_⟩
  exact c2_unspecified_project.2 [normalizeRecord demoParse rawNoProj] _
    (List.mem_singleton.mpr rfl)
    (c2_unspecified_project.1 demoParse rawNoProj (Or.inl (by decide)))

/-- C3: action-item resolution is two-tier — the exact configured header
"Action Points" supplies the value whenever that key is present;
otherwise the first header in iteration order matching the
case-insensitive action pattern supplies it; and the pattern accepts the
drifted header "Action Items (for next week)" (and an action to-dos
variant) while rejecting an unrelated header. -/
theorem c3_action_two_tier :
    (∀ (parse : String → Option JDate) (raw : RawRow) (v : String),
      jsGet raw "Action Points" = some v →
      (normalizeRecord parse raw).action_items = splitList v) ∧
    (∀ (parse : String → Option JDate) (raw : RawRow) (kv : String × String),
      jsGet raw "Action Points" = none →
      raw.find? (fun kv => actionTest kv.1) = some kv →
      (normalizeRecord parse raw).action_items = splitList kv.2) ∧
    actionTest "Action Items (for next week)" = true ∧
    actionTest "action to-dos" = true ∧
    actionTest "Meeting Topic" = false := by
  refine ⟨?_, ?_, by decide, by decide, by decide⟩
  · intro parse raw v h
    have hap : jsGet raw COLUMN_MAP.action_points = some v := h
    rw [normalizeRecord_action_items,
      pickColumn_of_present raw COLUMN_MAP.action_points actionTest v (by decide) hap,
      jsOrStr_some_empty]
  · intro parse raw kv h hfind
    have hap : jsGet raw COLUMN_MAP.action_points = none := h
    rw [normalizeRecord_action_items, pickColumn_of_absent raw COLUMN_MAP.action_points actionTest hap,
      hfind]
    show splitList (jsOrStr (some kv.2) "") = splitList kv.2
    rw [jsOrStr_some_empty]

/-- Witness for C3: a row with no exact "Action Points" header but a
drifted "Action Items (for next week)" header yields the split value of
that column. -/
theorem c3_action_two_tier_witness :
    (normalizeRecord demoParse rawAction).action_items = splitList "Do X; Do Y" :=
  c3_action_two_tier.2.1 demoParse rawAction ("Action Items (for next week)", "Do X; Do Y")
    (by decide) (by decide)

/-- C4: a date bound drops a record only when its date is present and
strictly outside the bound; a record with absent date is never excluded
by the date-from/date-to bounds, whatever they are. -/
theorem c4_absent_date_exempt (fs : FilterSpec) (recs : List MeetingRecord) (r : MeetingRecord)
    (hr : r ∈ recs) :
    (r.date = none →
      (r ∈ filteredRecords fs recs ↔ projOK fs r ∧ studOK fs r ∧ queryOK fs r)) ∧
    (∀ d, r.date = some d →
      (r ∈ filteredRecords fs recs ↔
        projOK fs r ∧ studOK fs r ∧
        (∀ b, fs.dateFrom = some b → ¬ d.time < b) ∧
        (∀ b, fs.dateTo = some b → ¬ b < d.time) ∧ queryOK fs r)) := by
  constructor
  · intro hd
    rw [mem_filteredRecords]
    unfold specMatchesFilter fromOK toOK
    constructor
    · rintro ⟨-, hp, hs, -, -, hq⟩
      exact ⟨hp, hs, hq⟩
    · rintro ⟨hp, hs, hq⟩
      refine ⟨hr, hp, hs, ?_, ?_, hq⟩
      · intro b hb d hdd
        rw [hd] at hdd
        cases hdd
      · intro b hb d hdd
        rw [hd] at hdd
        cases hdd
  · intro d hd
    rw [mem_filteredRecords]
    unfold specMatchesFilter fromOK toOK
    constructor
    · rintro ⟨-, hp, hs, hf, ht, hq⟩
      refine ⟨hp, hs, ?_, ?_, hq⟩
      · intro b hb
        have := hf b hb d hd
        omega
      · intro b hb
        have := ht b hb d hd
        omega
    · rintro ⟨hp, hs, hf, ht, hq⟩
      refine ⟨hr, hp, hs, ?_, ?_, hq⟩
      · intro b hb d' hd'
        rw [hd] at hd'
        injection hd' with he
        subst he
        have := hf b hb
        omega
      · intro b hb d' hd'
        rw [hd] at hd'
        injection hd' with he
        subst he
        have := ht b hb
        omega

/-- Witness for C4: a record with absent date passes a filter whose
bounds exclude every dated fixture. -/
theorem c4_absent_date_exempt_witness : rNone ∈ filteredRecords fsBounds [rNone] :=
  ((c4_absent_date_exempt fsBounds [rNone] rNone (List.mem_singleton.mpr rfl)).1
    (by decide)).mpr ⟨Or.inl rfl, Or.inl rfl, Or.inl (by decide)⟩

/-- C5: the filter engine returns exactly the records satisfying the
conjunction of all active predicates — project equality unless ALL,
student equality unless ALL, the date bounds with absent-date exemption,
and a case-insensitive substring match of the query against the joined
haystack, an empty query matching everything. -/
theorem c5_filter_conjunction (fs : FilterSpec) (recs : List MeetingRecord) (r : MeetingRecord) :
    r ∈ filteredRecords fs recs ↔ r ∈ recs ∧ specMatchesFilter fs r :=
  mem_filteredRecords fs recs r

/-- Witness for C5: the wildcard filter keeps the fixture record. -/
theorem c5_filter_conjunction_witness : rNone ∈ filteredRecords fsAll [rNeg, rNone] :=
  (c5_filter_conjunction fsAll [rNeg, rNone] rNone).mpr
    ⟨by decide, Or.inl rfl, Or.inl rfl,
      (by intro b hb; simp [fsAll] at hb),
      (by intro b hb; simp [fsAll] at hb),
      Or.inl (by decide)⟩

/-- C6: list-field splitting splits on semicolon or newline only, trims
each piece, drops empty pieces, and preserves source order (the result is
an order-preserving sublist of the trimmed pieces); concretely,
"A; B;\nC" yields ["A","B","C"], and comma is not a delimiter. -/
theorem c6_splitList (s x : String) (hx : x ∈ splitList s) :
    (x ≠ "" ∧ trimStr x = x) ∧
    List.Sublist (splitList s)
      ((splitPieces splitDelim s.toList).map (fun p => trimStr (String.mk p))) ∧
    splitList "A; B;\nC" = ["A", "B", "C"] ∧
    splitList "A, B" = ["A, B"] ∧
    splitList "A\nB;C" = ["A", "B", "C"] := by
  refine ⟨splitList_mem hx, ?_, by decide, by decide, by decide⟩
  unfold splitList
  by_cases hs : (s == "") = true
  · rw [if_pos hs]
    exact List.nil_sublist _
  · rw [if_neg hs]
    exact List.filter_sublist _

/-- Witness for C6 at the concrete round-trip input. -/
theorem c6_splitList_witness :
    (("A" : String) ≠ "" ∧ trimStr "A" = "A") ∧
    List.Sublist (splitList "A; B;\nC")
      ((splitPieces splitDelim ("A; B;\nC" : String).toList).map (fun p => trimStr (String.mk p))) ∧
    splitList "A; B;\nC" = ["A", "B", "C"] ∧
    splitList "A, B" = ["A, B"] ∧
    splitList "A\nB;C" = ["A", "B", "C"] :=
  c6_splitList "A; B;\nC" "A" (by decide)

/-- C7: normalizer invariants — project, topic and inputs are never empty
(their defaults are non-empty sentinels), `date_label` is the normalized
year-month-day string when the date parsed and the raw (possibly empty)
date string otherwise, and every subtopic and action item is a non-empty
trimmed string. -/
theorem c7_normalizer_invariants (parse : String → Option JDate) (raw : RawRow) :
    (normalizeRecord parse raw).project ≠ "" ∧
    (normalizeRecord parse raw).topic ≠ "" ∧
    (normalizeRecord parse raw).my_inputs ≠ "" ∧
    (∀ d, (normalizeRecord parse raw).date = some d →
      (normalizeRecord parse raw).date_label = toYMD (some d)) ∧
    ((normalizeRecord parse raw).date = none →
      (normalizeRecord parse raw).date_label =
        jsOrStr (jsOrOpt (jsGet raw COLUMN_MAP.date) (jsGet raw COLUMN_MAP.timestamp)) "") ∧
    (∀ x, x ∈ (normalizeRecord parse raw).subtopics → x ≠ "" ∧ trimStr x = x) ∧
    (∀ x, x ∈ (normalizeRecord parse raw).action_items → x ≠ "" ∧ trimStr x = x) := by
  refine ⟨?_, ?_, ?_, ?_, ?_, ?_, ?_⟩
  · rw [normalizeRecord_project]
    exact jsOrStr_ne_empty _ _ (by decide)
  · rw [normalizeRecord_topic]
    exact jsOrStr_ne_empty _ _ (by decide)
  · rw [normalizeRecord_my_inputs]
    exact jsOrStr_ne_empty _ _ (by decide)
  · intro d hd
    rw [normalizeRecord_date] at hd
    rw [normalizeRecord_date_label, hd]
  · intro hd
    rw [normalizeRecord_date] at hd
    rw [normalizeRecord_date_label, hd]
  · rw [normalizeRecord_subtopics]
    intro x hx
    exact splitList_mem hx
  · rw [normalizeRecord_action_items]
    intro x hx
    exact splitList_mem hx

/-- Witness for C7 on a fully populated row: the parsed date yields the
normalized label, and a concrete subtopic element is non-empty and
trimmed. -/
theorem c7_normalizer_invariants_witness :
    (normalizeRecord demoParse rawFull).date_label =
      toYMD (some { time := 1736467200000, year := 2025, month := 0, day := 10 }) ∧
    (("Scope" : String) ≠ "" ∧ trimStr "Scope" = "Scope") := by
  refine ⟨(c7_normalizer_invariants demoParse rawFull).2.2.2.1 _ (by decide), ?_⟩
  exact (c7_normalizer_invariants demoParse rawFull).2.2.2.2.2.1 "Scope" (by decide)

/-- C8: grouping and the post-filter sort only rearrange the input
records — each project group is a permutation of the input records whose
group key matches, and the sorted view is a permutation of the filtered
set; no record is altered. -/
theorem c8_pure_rearrangement (fs : FilterSpec) (recs : List MeetingRecord) (k : String) :
    List.Perm (findGroup (groupByProject recs) k) (recs.filter (fun r => groupKey r == k)) ∧
    List.Perm (sortedRecords fs recs) (filteredRecords fs recs) := by
  constructor
  · rw [findGroup_groupByProject]
    exact sortByDateDesc_perm _
  · unfold sortedRecords
    exact sortByDateDesc_perm _

/-- C9: with no header literally spelled "undefined" in the row,
`meeting_id` is the empty string regardless of the row's contents — the
column map defines no meeting_id header, so the access resolves to the
coerced key "undefined". -/
theorem c9_meeting_id_empty (parse : String → Option JDate) (raw : RawRow)
    (h : jsGet raw "undefined" = none) :
    (normalizeRecord parse raw).meeting_id = "" := by
  rw [normalizeRecord_meeting_id, h]
  rfl

/-- Witness for C9 on the fully populated row. -/
theorem c9_meeting_id_empty_witness : (normalizeRecord demoParse rawFull).meeting_id = "" :=
  c9_meeting_id_empty demoParse rawFull (by decide)

/-- C10: when the exact configured header "Action Points" is present but
maps to the empty value, `action_items` is the empty sequence — the regex
fallback is consulted only when the configured key is absent, never when
its value is merely empty. -/
theorem c10_empty_exact_header (parse : String → Option JDate) (raw : RawRow)
    (h : jsGet raw "Action Points" = some "") :
    (normalizeRecord parse raw).action_items = [] := by
  have hap : jsGet raw COLUMN_MAP.action_points = some "" := h
  rw [normalizeRecord_action_items,
    pickColumn_of_present raw COLUMN_MAP.action_points actionTest "" (by decide) hap,
    jsOrStr_some_empty]
  rfl

/-- Witness for C10: the empty exact header wins even though the drifted
header "Action Items (for next week)" holds non-empty content. -/
theorem c10_empty_exact_header_witness : (normalizeRecord demoParse rawAP).action_items = [] :=
  c10_empty_exact_header demoParse rawAP (by decide)
